import Mathlib

/-!
# Verification of the CHAT_HELP retrieval-and-generation orchestrator

A shallow embedding, in Lean 4, of the retrieval-and-generation core of the
CHAT_HELP repository (`backend/services/rag_service.py`,
`backend/services/database_service.py`, `backend/app/api/chat.py`), together
with theorems settling the behavioural claims about query normalization and
expansion, hit merging, the generation provider chain, the orchestrator's
empty-result path, adapter error absorption and chat-turn persistence.

Python strings are modelled as `List Char`.  `Char.toLower`-style case
mapping in Lean only covers ASCII, so the embedding supplies its own case
maps (`charLower`, `charUpper`) that are faithful to Python's `str.lower` /
`str.upper` on the alphabet the program actually manipulates: ASCII plus the
Cyrillic block (the substitution and synonym tables of the source are all
ASCII/Cyrillic).  Fallible Python code is embedded with `Except`; stateful
collaborators (database, Chroma vector store, generation providers) are
oracles passed in explicitly.
-/

namespace ChatHelp

/-! ## Python string primitives -/

/-- Whitespace characters removed by Python's `str.strip()` (space, tab,
newline, carriage return, vertical tab, form feed). -/
def pySpaceChars : List Char := (" \t\n\r\x0b\x0c".data)

def isPySpace (c : Char) : Bool := pySpaceChars.contains c

/-- Python `str.strip()`: drop leading and trailing whitespace. -/
def strip (s : List Char) : List Char :=
  ((s.dropWhile isPySpace).reverse.dropWhile isPySpace).reverse

/-- Python `str.lower()` restricted to the alphabet used by the program:
ASCII `A`..`Z`, Cyrillic `А`..`Я` (U+0410..U+042F) and `Ё` (U+0401). -/
def charLower (c : Char) : Char :=
  if 0x41 ≤ c.toNat ∧ c.toNat ≤ 0x5A then Char.ofNat (c.toNat + 0x20)
  else if 0x410 ≤ c.toNat ∧ c.toNat ≤ 0x42F then Char.ofNat (c.toNat + 0x20)
  else if c.toNat = 0x401 then Char.ofNat 0x451
  else c

/-- Python `str.upper()` restricted to the same alphabet. -/
def charUpper (c : Char) : Char :=
  if 0x61 ≤ c.toNat ∧ c.toNat ≤ 0x7A then Char.ofNat (c.toNat - 0x20)
  else if 0x430 ≤ c.toNat ∧ c.toNat ≤ 0x44F then Char.ofNat (c.toNat - 0x20)
  else if c.toNat = 0x451 then Char.ofNat 0x401
  else c

def pyLower (s : List Char) : List Char := s.map charLower

def pyUpper (s : List Char) : List Char := s.map charUpper

/-- Python's substring test `p in s` (also used for `str.find`-style
checks): `p` occurs contiguously in `s`. -/
def containsSub (p : List Char) : List Char → Bool
  | [] => p.isEmpty
  | c :: rest => p.isPrefixOf (c :: rest) || containsSub p rest

/-- One scanning pass of Python `str.replace(old, new)`: replace every
non-overlapping occurrence of `old`, scanning left to right and continuing
after the inserted `new`.  The scan consumes at least one character of the
input per step, so `fuel = s.length` (as used by `replace`) makes the fuelled
recursion equal to Python's replacement on every input with `old ≠ []`
(the program only ever replaces non-empty patterns). -/
def replaceFuel (old new : List Char) : Nat → List Char → List Char
  | 0, s => s
  | _ + 1, [] => []
  | fuel + 1, c :: rest =>
    if old ≠ [] ∧ old.isPrefixOf (c :: rest) then
      new ++ replaceFuel old new fuel ((c :: rest).drop old.length)
    else
      c :: replaceFuel old new fuel rest

/-- Python `str.replace(old, new)` for non-empty `old`. -/
def replace (old new s : List Char) : List Char :=
  replaceFuel old new s.length s

/-- The loop `while "  " in t: t = t.replace("  ", " ")` of
`_normalize_query`.  Each iteration on a string containing a double space
strictly shortens the string, so `fuel = s.length` iterations always reach
the loop's fixed point. -/
def collapseSpacesFuel : Nat → List Char → List Char
  | 0, s => s
  | fuel + 1, s =>
    if containsSub ("  ".data) s then
      collapseSpacesFuel fuel (replace ("  ".data) (" ".data) s)
    else s

def collapseSpaces (s : List Char) : List Char := collapseSpacesFuel s.length s

/-! ## Query normalizer (`RAGService._normalize_query`) -/

/-- The static colloquial-to-brand substitution table of `_normalize_query`,
in the source's (insertion) order. -/
def replacementsTable : List (List Char × List Char) :=
  [(("автокад".data), ("AutoCAD".data)),
   (("ауто кад".data), ("AutoCAD".data)),
   (("виндовс".data), ("Windows".data)),
   (("эксель".data), ("Excel".data)),
   (("оутлук".data), ("Outlook".data)),
   (("аутлук".data), ("Outlook".data)),
   (("мс офис".data), ("MS Office".data)),
   (("мсо".data), ("MSO".data)),
   (("гит".data), ("GIT".data)),
   (("сбп".data), ("СБП".data)),
   (("мт ".data), ("МТ ".data)),
   ((" диадок".data), (" Диадок".data))]

/-- Embeds `RAGService._normalize_query`: empty input short-circuits to "";
otherwise strip, then for each table entry `(k, v)` whose key occurs in the
lowercased current text, set `t := t.lower().replace(k, v)` (note: the
source lowercases the whole string before substituting), then collapse
runs of double spaces and strip again. -/
def normalizeQuery (text : List Char) : List Char :=
  if text = [] then []
  else
    let t := strip text
    let t := replacementsTable.foldl
      (fun t kv => if containsSub kv.1 (pyLower t) then replace kv.1 kv.2 (pyLower t) else t) t
    strip (collapseSpaces t)

/-! ## Variant expander (`RAGService._expand_query_variants`) -/

/-- The synonym/abbreviation groups of `_expand_query_variants`. -/
def synonymGroups : List (List (List Char)) :=
  [[("AutoCAD".data), ("Автокад".data), ("Autodesk AutoCAD".data)],
   [("Excel".data), ("Эксель".data), ("MS Excel".data)],
   [("Outlook".data), ("Аутлук".data), ("MS Outlook".data)],
   [("Windows".data), ("Виндовс".data), ("MS Windows".data)],
   [("GIT".data), ("Git".data), ("Система контроля версий GIT".data)],
   [("МТ".data), ("MT".data), ("МойСклад?".data), ("МТ кассы".data)],
   [("GLPI".data), ("глпи".data)],
   [("ОФД".data), ("офд".data)],
   [("Диадок".data), ("Diadoc".data)]]

/-- The phrase-simplification pairs of `_expand_query_variants`. -/
def simplifications : List (List Char × List Char) :=
  [(("Не могу ".data), ("Не удается ".data)),
   (("Ошибка ".data), ("Сбой ".data)),
   (("не работает".data), ("не функционирует".data))]

/-- The bilingual keyword groups of `_expand_query_variants`
(`keyword_variants.values()` in insertion order). -/
def keywordVariants : List (List (List Char)) :=
  [[("dialog".data), ("диалог".data), ("диалоговое окно".data)],
   [("save".data), ("сохранение".data), ("сохранить".data)],
   [("sync".data), ("синхронизация".data), ("синхронизируются".data)]]

/-- `add_replaced(orig, a, b)`: append `orig.replace(a, b)` when `a` occurs
in `orig`. -/
def addReplaced (base a b : List Char) (acc : List (List Char)) : List (List Char) :=
  if containsSub a base then acc ++ [replace a b base] else acc

/-- The two nested loops `for a in group: for b in group: if a != b:
add_replaced(base, a, b)`. -/
def groupVariants (base : List Char) (group : List (List Char))
    (acc : List (List Char)) : List (List Char) :=
  group.foldl
    (fun acc a => group.foldl (fun acc b => if a ≠ b then addReplaced base a b acc else acc) acc)
    acc

/-- The deduplication loop of `_expand_query_variants`: for each candidate,
strip it; append it when non-empty and its lowercasing is unseen; stop as
soon as eight variants are collected. -/
def dedupLoop (seen : List (List Char)) (acc : List (List Char)) :
    List (List Char) → List (List Char)
  | [] => acc
  | v :: rest =>
    if strip v ≠ [] ∧ pyLower (strip v) ∉ seen then
      (if 8 ≤ (acc ++ [strip v]).length then acc ++ [strip v]
       else dedupLoop (pyLower (strip v) :: seen) (acc ++ [strip v]) rest)
    else
      (if 8 ≤ acc.length then acc else dedupLoop seen acc rest)

/-- Embeds `RAGService._expand_query_variants`. -/
def expandQueryVariants (text : List Char) : List (List Char) :=
  let base := strip text
  if base = [] then [[]]
  else
    let variants := [base]
    let variants := synonymGroups.foldl (fun acc g => groupVariants base g acc) variants
    let variants := simplifications.foldl (fun acc ab => addReplaced base ab.1 ab.2 acc) variants
    let variants := keywordVariants.foldl (fun acc g => groupVariants base g acc) variants
    dedupLoop [] [] variants

/-! ## Supporting lemmas: stripping and the deduplication loop -/

theorem dropWhile_idem (p : Char → Bool) :
    ∀ l : List Char, (l.dropWhile p).dropWhile p = l.dropWhile p
  | [] => rfl
  | c :: t => by
    by_cases hp : p c
    · simp only [List.dropWhile_cons, hp, if_true]
      exact dropWhile_idem p t
    · simp [List.dropWhile_cons, hp]

theorem dropWhile_first_false (p : Char → Bool) :
    ∀ (l res : List Char) (c : Char), l.dropWhile p = c :: res → p c = false
  | [], res, c => by intro h; simp [List.dropWhile] at h
  | a :: t, res, c => by
    intro h
    by_cases hp : p a
    · exact dropWhile_first_false p t res c (by simpa [List.dropWhile_cons, hp] using h)
    · simp only [List.dropWhile_cons, hp, if_false, Bool.false_eq_true,
        List.cons.injEq] at h
      rw [← h.1]
      simpa using hp

theorem dropWhile_isSuffix (p : Char → Bool) :
    ∀ l : List Char, l.dropWhile p <:+ l
  | [] => List.suffix_rfl
  | c :: t => by
    by_cases hp : p c
    · simp only [List.dropWhile_cons, hp, if_true]
      exact (dropWhile_isSuffix p t).trans (List.suffix_cons c t)
    · simp [List.dropWhile_cons, hp]

theorem strip_strip (s : List Char) : strip (strip s) = strip s := by
  unfold strip
  set A := s.dropWhile isPySpace with hA
  set B := A.reverse.dropWhile isPySpace with hB
  have hpre : B.reverse <+: A := by
    have h1 : B <:+ A.reverse := hB ▸ dropWhile_isSuffix isPySpace A.reverse
    obtain ⟨t, ht⟩ := h1
    exact ⟨t.reverse, by rw [← List.reverse_append, ht, List.reverse_reverse]⟩
  have hstep1 : B.reverse.dropWhile isPySpace = B.reverse := by
    rcases hrev : B.reverse with _ | ⟨x, t⟩
    · simp
    · obtain ⟨r, hr⟩ := hpre
      rw [hrev] at hr
      have hx : isPySpace x = false := by
        apply dropWhile_first_false isPySpace s (t ++ r) x
        rw [hA] at hr
        simpa using hr.symm
      simp [List.dropWhile_cons, hx]
  rw [hstep1]
  have : B.reverse.reverse.dropWhile isPySpace = B := by
    rw [List.reverse_reverse, hB]
    exact dropWhile_idem isPySpace A.reverse
  rw [this]

theorem strip_normalizeQuery (s : List Char) :
    strip (normalizeQuery s) = normalizeQuery s := by
  unfold normalizeQuery
  by_cases h : s = []
  · simp [h, strip]
  · simp only [h, if_false]
    exact strip_strip _

theorem dedupLoop_length_le (l : List (List Char)) :
    ∀ (seen acc : List (List Char)), acc.length < 8 → (dedupLoop seen acc l).length ≤ 8 := by
  induction l with
  | nil => intro seen acc h; simpa [dedupLoop] using Nat.le_of_lt h
  | cons v rest ih =>
    intro seen acc h
    simp only [dedupLoop]
    by_cases hkeep : strip v ≠ [] ∧ pyLower (strip v) ∉ seen
    · rw [if_pos hkeep]
      by_cases h8 : 8 ≤ (acc ++ [strip v]).length
      · rw [if_pos h8]
        simp only [List.length_append, List.length_singleton]
        omega
      · rw [if_neg h8]
        exact ih _ _ (by omega)
    · rw [if_neg hkeep]
      have h8 : ¬ (8 ≤ acc.length) := by omega
      rw [if_neg h8]
      exact ih _ _ h

theorem dedupLoop_isPrefix (l : List (List Char)) :
    ∀ (seen acc : List (List Char)), acc <+: dedupLoop seen acc l := by
  induction l with
  | nil => intro seen acc; simp [dedupLoop]
  | cons v rest ih =>
    intro seen acc
    simp only [dedupLoop]
    by_cases hkeep : strip v ≠ [] ∧ pyLower (strip v) ∉ seen
    · rw [if_pos hkeep]
      have hstep : acc <+: acc ++ [strip v] := ⟨[strip v], rfl⟩
      by_cases h8 : 8 ≤ (acc ++ [strip v]).length
      · rw [if_pos h8]; exact hstep
      · rw [if_neg h8]
        exact hstep.trans (ih _ _)
    · rw [if_neg hkeep]
      by_cases h8 : 8 ≤ acc.length
      · rw [if_pos h8]
      · rw [if_neg h8]
        exact ih _ _

/-- The case-insensitive distinctness relation used by the deduplication. -/
def LowerDistinct (a b : List Char) : Prop := pyLower a ≠ pyLower b

theorem dedupLoop_pairwise (l : List (List Char)) :
    ∀ (seen acc : List (List Char)),
      (∀ x ∈ acc, pyLower x ∈ seen) → List.Pairwise LowerDistinct acc →
      List.Pairwise LowerDistinct (dedupLoop seen acc l) := by
  induction l with
  | nil => intro seen acc _ hp; simpa [dedupLoop] using hp
  | cons v rest ih =>
    intro seen acc hseen hp
    simp only [dedupLoop]
    by_cases hkeep : strip v ≠ [] ∧ pyLower (strip v) ∉ seen
    · rw [if_pos hkeep]
      have hp2 : List.Pairwise LowerDistinct (acc ++ [strip v]) := by
        rw [List.pairwise_append]
        refine ⟨hp, List.pairwise_singleton _ _, ?_⟩
        intro a ha b hb
        rw [List.mem_singleton] at hb
        subst hb
        intro hcontra
        exact hkeep.2 (hcontra ▸ hseen a ha)
      have hseen2 : ∀ x ∈ acc ++ [strip v], pyLower x ∈ pyLower (strip v) :: seen := by
        intro x hx
        rcases List.mem_append.mp hx with hx | hx
        · exact List.mem_cons_of_mem _ (hseen x hx)
        · rw [List.mem_singleton] at hx
          subst hx
          exact List.mem_cons_self _ _
      by_cases h8 : 8 ≤ (acc ++ [strip v]).length
      · rw [if_pos h8]; exact hp2
      · rw [if_neg h8]
        exact ih _ _ hseen2 hp2
    · rw [if_neg hkeep]
      by_cases h8 : 8 ≤ acc.length
      · rw [if_pos h8]; exact hp
      · rw [if_neg h8]
        exact ih _ _ hseen hp

theorem foldl_isPrefix {β : Type} (f : List (List Char) → β → List (List Char))
    (hf : ∀ acc b, acc <+: f acc b) :
    ∀ (l : List β) (acc : List (List Char)), acc <+: l.foldl f acc := by
  intro l
  induction l with
  | nil => intro acc; simp
  | cons b rest ih => intro acc; exact (hf acc b).trans (ih (f acc b))

theorem addReplaced_isPrefix (base a b : List Char) (acc : List (List Char)) :
    acc <+: addReplaced base a b acc := by
  unfold addReplaced
  by_cases h : containsSub a base = true
  · rw [if_pos h]; exact ⟨[replace a b base], rfl⟩
  · rw [if_neg h]

theorem groupVariants_isPrefix (base : List Char) (g : List (List Char))
    (acc : List (List Char)) : acc <+: groupVariants base g acc := by
  unfold groupVariants
  apply foldl_isPrefix
  intro acc a
  apply foldl_isPrefix
  intro acc b
  by_cases hab : a ≠ b
  · rw [if_pos hab]; exact addReplaced_isPrefix base a b acc
  · rw [if_neg hab]

/-- The candidate list built by `_expand_query_variants` always starts with
the (re-stripped) base query. -/
theorem expandQueryVariants_eq_dedup (text : List Char) (h : strip text ≠ []) :
    ∃ rest, expandQueryVariants text = dedupLoop [] [] (strip text :: rest) := by
  unfold expandQueryVariants
  simp only [h, if_false]
  have h1 : [strip text] <+:
      synonymGroups.foldl (fun acc g => groupVariants (strip text) g acc) [strip text] :=
    foldl_isPrefix _ (fun acc g => groupVariants_isPrefix _ g acc) _ _
  have h2 := foldl_isPrefix
    (fun acc (ab : List Char × List Char) => addReplaced (strip text) ab.1 ab.2 acc)
    (fun acc ab => addReplaced_isPrefix _ ab.1 ab.2 acc) simplifications
    (synonymGroups.foldl (fun acc g => groupVariants (strip text) g acc) [strip text])
  have h3 := foldl_isPrefix
    (fun acc g => groupVariants (strip text) g acc)
    (fun acc g => groupVariants_isPrefix _ g acc) keywordVariants
    (simplifications.foldl (fun acc ab => addReplaced (strip text) ab.1 ab.2 acc)
      (synonymGroups.foldl (fun acc g => groupVariants (strip text) g acc) [strip text]))
  have hall : [strip text] <+:
      keywordVariants.foldl (fun acc g => groupVariants (strip text) g acc)
        (simplifications.foldl (fun acc ab => addReplaced (strip text) ab.1 ab.2 acc)
          (synonymGroups.foldl (fun acc g => groupVariants (strip text) g acc) [strip text])) :=
    (h1.trans h2).trans h3
  obtain ⟨rest, hrest⟩ := hall
  rw [List.singleton_append] at hrest
  exact ⟨rest, by rw [← hrest]⟩

/-- C1: for every input string, the composed query expansion
(`_normalize_query` then `_expand_query_variants`) returns between 1 and 8
variants, the first of which is the normalized input, with no two variants
equal case-insensitively; for the empty input it returns the empty string
as the sole variant. -/
theorem c1_expand_after_normalize (s : List Char) :
    1 ≤ (expandQueryVariants (normalizeQuery s)).length ∧
    (expandQueryVariants (normalizeQuery s)).length ≤ 8 ∧
    (expandQueryVariants (normalizeQuery s)).head? = some (normalizeQuery s) ∧
    List.Pairwise LowerDistinct (expandQueryVariants (normalizeQuery s)) ∧
    expandQueryVariants (normalizeQuery []) = [[]] := by
  have hempty : expandQueryVariants (normalizeQuery []) = [[]] := by
    simp [normalizeQuery, expandQueryVariants, strip]
  by_cases h : strip (normalizeQuery s) = []
  · have h0 : normalizeQuery s = [] := by
      rw [← strip_normalizeQuery s]; exact h
    have he : expandQueryVariants (normalizeQuery s) = [[]] := by
      unfold expandQueryVariants
      rw [if_pos h]
    refine ⟨by simp [he], by simp [he], ?_, by simp [he, List.pairwise_singleton], hempty⟩
    rw [he, h0]
    rfl
  · obtain ⟨rest, hrest⟩ := expandQueryVariants_eq_dedup (normalizeQuery s) h
    rw [strip_normalizeQuery s] at hrest h
    have hcond : strip (normalizeQuery s) ≠ [] ∧
        pyLower (strip (normalizeQuery s)) ∉ ([] : List (List Char)) := by
      rw [strip_normalizeQuery s]
      exact ⟨h, by simp⟩
    have hstep : dedupLoop [] [] (normalizeQuery s :: rest) =
        dedupLoop [pyLower (normalizeQuery s)] [normalizeQuery s] rest := by
      simp only [dedupLoop]
      rw [if_pos hcond, if_neg (by simp), strip_normalizeQuery s]
      simp
    have hpre : [normalizeQuery s] <+:
        dedupLoop [pyLower (normalizeQuery s)] [normalizeQuery s] rest :=
      dedupLoop_isPrefix rest _ _
    obtain ⟨tail, htail⟩ := hpre
    rw [List.singleton_append] at htail
    refine ⟨?_, ?_, ?_, ?_, hempty⟩
    · rw [hrest, hstep, ← htail]
      simp
    · rw [hrest, hstep]
      exact dedupLoop_length_le rest _ _ (by simp)
    · rw [hrest, hstep, ← htail]
      rfl
    · rw [hrest, hstep]
      apply dedupLoop_pairwise
      · intro x hx
        rw [List.mem_singleton] at hx
        subst hx
        exact List.mem_singleton.mpr rfl
      · exact List.pairwise_singleton _ _

/-! ## Data model -/

/-- An article row (`models/database.py : Article`), with the fields the
retrieval core reads.  `tags`/`categories` are the associated tag and
category names. -/
structure Article where
  id : Nat
  title : List Char
  text : List Char
  url : Option (List Char)
  tags : List (List Char)
  categories : List (List Char)
deriving DecidableEq, Repr

/-- A document row (`models/database.py : Document`), with the fields the
retrieval core reads. -/
structure Doc where
  id : Nat
  title : Option (List Char)
  originalFilename : List Char
  topic : Option (List Char)
  path : Option (List Char)
  extractedText : Option (List Char)
  summary : Option (List Char)
deriving DecidableEq, Repr

/-- A document chunk (`models/database.py : DocumentChunk`). -/
structure Chunk where
  text : List Char
deriving DecidableEq, Repr

/-! ## Result merger (the `collected.setdefault` maps of `generate_response`) -/

def keys {α : Type} (m : List (Nat × α)) : List Nat := m.map Prod.fst

/-- `dict.setdefault(k, v)` on an insertion-ordered map: never overwrite an
existing entry, new entries go to the end. -/
def insertIfAbsent {α : Type} (m : List (Nat × α)) (k : Nat) (v : α) : List (Nat × α) :=
  if k ∈ keys m then m else m ++ [(k, v)]

/-- Fold one adapter's hit batch into the running map, as the
`for art in ...: collected.setdefault(art.id, art)` loops do. -/
def mergeInto {α : Type} (idOf : α → Nat) (m : List (Nat × α)) (batch : List α) :
    List (Nat × α) :=
  batch.foldl (fun m a => insertIfAbsent m (idOf a) a) m

/-- Fold a whole sequence of hit batches (one per adapter call, in
variant-then-adapter order) into the running map. -/
def mergeBatches {α : Type} (idOf : α → Nat) (batches : List (List α)) : List (Nat × α) :=
  batches.foldl (mergeInto idOf) []

def firstOccurrencesAux (seen : List Nat) : List Nat → List Nat
  | [] => []
  | x :: xs =>
    if x ∈ seen then firstOccurrencesAux seen xs
    else x :: firstOccurrencesAux (x :: seen) xs

/-- The id stream with every id kept only at its first occurrence. -/
def firstOccurrences (l : List Nat) : List Nat := firstOccurrencesAux [] l

def lookupId {α : Type} (k : Nat) : List (Nat × α) → Option α
  | [] => none
  | p :: rest => if p.1 = k then some p.2 else lookupId k rest

/-- The first hit with a given entity id in a hit stream. -/
def firstHit {α : Type} (idOf : α → Nat) (k : Nat) : List α → Option α
  | [] => none
  | a :: rest => if idOf a = k then some a else firstHit idOf k rest

/-! ### Merger lemmas -/

theorem firstOccurrencesAux_congr (l : List Nat) :
    ∀ s s2 : List Nat, (∀ y, y ∈ s ↔ y ∈ s2) →
      firstOccurrencesAux s l = firstOccurrencesAux s2 l := by
  induction l with
  | nil => intro s s2 _; rfl
  | cons x xs ih =>
    intro s s2 hss
    simp only [firstOccurrencesAux]
    by_cases hx : x ∈ s
    · rw [if_pos hx, if_pos ((hss x).mp hx)]
      exact ih s s2 hss
    · rw [if_neg hx, if_neg (fun hc => hx ((hss x).mpr hc))]
      refine congrArg _ (ih _ _ ?_)
      intro y
      simp only [List.mem_cons]
      exact or_congr Iff.rfl (hss y)

theorem firstOccurrencesAux_nodup (l : List Nat) :
    ∀ s : List Nat, (firstOccurrencesAux s l).Nodup ∧
      ∀ x ∈ firstOccurrencesAux s l, x ∉ s := by
  induction l with
  | nil => intro s; simp [firstOccurrencesAux]
  | cons x xs ih =>
    intro s
    simp only [firstOccurrencesAux]
    by_cases hx : x ∈ s
    · rw [if_pos hx]; exact ih s
    · rw [if_neg hx]
      obtain ⟨hnd, hnotin⟩ := ih (x :: s)
      refine ⟨List.nodup_cons.mpr ⟨?_, hnd⟩, ?_⟩
      · intro hc
        exact hnotin x hc (List.mem_cons_self _ _)
      · intro y hy
        rcases List.mem_cons.mp hy with hy | hy
        · subst hy; exact hx
        · intro hc
          exact hnotin y hy (List.mem_cons_of_mem _ hc)

theorem keys_insertIfAbsent {α : Type} (m : List (Nat × α)) (k : Nat) (v : α) :
    keys (insertIfAbsent m k v) = if k ∈ keys m then keys m else keys m ++ [k] := by
  unfold insertIfAbsent
  by_cases h : k ∈ keys m
  · rw [if_pos h, if_pos h]
  · rw [if_neg h, if_neg h]
    simp [keys]

theorem mergeInto_cons {α : Type} (idOf : α → Nat) (m : List (Nat × α)) (a : α)
    (t : List α) :
    mergeInto idOf m (a :: t) = mergeInto idOf (insertIfAbsent m (idOf a) a) t := by
  simp [mergeInto]

theorem keys_mergeInto {α : Type} (idOf : α → Nat) (batch : List α) :
    ∀ m : List (Nat × α),
      keys (mergeInto idOf m batch) = keys m ++ firstOccurrencesAux (keys m) (batch.map idOf) := by
  induction batch with
  | nil => intro m; simp [mergeInto, firstOccurrencesAux]
  | cons a t ih =>
    intro m
    rw [mergeInto_cons]
    simp only [List.map_cons, firstOccurrencesAux]
    by_cases h : idOf a ∈ keys m
    · rw [if_pos h]
      have hins : insertIfAbsent m (idOf a) a = m := by
        unfold insertIfAbsent; rw [if_pos h]
      rw [hins]
      exact ih m
    · rw [if_neg h]
      have hins : insertIfAbsent m (idOf a) a = m ++ [(idOf a, a)] := by
        unfold insertIfAbsent; rw [if_neg h]
      rw [hins]
      have hk : keys (m ++ [(idOf a, a)]) = keys m ++ [idOf a] := by simp [keys]
      rw [ih (m ++ [(idOf a, a)]), hk]
      rw [List.append_assoc, List.singleton_append]
      refine congrArg _ (congrArg _ ?_)
      apply firstOccurrencesAux_congr
      intro y
      simp [or_comm]

theorem mergeInto_append {α : Type} (idOf : α → Nat) (m : List (Nat × α))
    (l1 l2 : List α) :
    mergeInto idOf m (l1 ++ l2) = mergeInto idOf (mergeInto idOf m l1) l2 := by
  simp [mergeInto, List.foldl_append]

theorem mergeBatches_eq_flatten {α : Type} (idOf : α → Nat) (batches : List (List α)) :
    mergeBatches idOf batches = mergeInto idOf [] batches.flatten := by
  suffices h : ∀ m, batches.foldl (mergeInto idOf) m = mergeInto idOf m batches.flatten by
    exact h []
  induction batches with
  | nil => intro m; simp [mergeInto]
  | cons b bs ih =>
    intro m
    simp only [List.foldl_cons, List.flatten_cons]
    rw [mergeInto_append]
    exact ih (mergeInto idOf m b)

theorem lookupId_append {α : Type} (k : Nat) (m2 : List (Nat × α)) :
    ∀ m1 : List (Nat × α),
      lookupId k (m1 ++ m2) = (lookupId k m1).orElse (fun _ => lookupId k m2) := by
  intro m1
  induction m1 with
  | nil => simp [lookupId, Option.orElse]
  | cons p rest ih =>
    simp only [List.cons_append, lookupId]
    by_cases h : p.1 = k
    · rw [if_pos h, if_pos h]; rfl
    · rw [if_neg h, if_neg h]; exact ih

theorem lookupId_none_iff {α : Type} (k : Nat) :
    ∀ m : List (Nat × α), lookupId k m = none ↔ k ∉ keys m := by
  intro m
  induction m with
  | nil => simp [lookupId, keys]
  | cons p rest ih =>
    simp only [lookupId, keys, List.map_cons, List.mem_cons]
    by_cases h : p.1 = k
    · rw [if_pos h]
      simp [h]
    · rw [if_neg h]
      rw [ih]
      constructor
      · intro hn
        intro hc
        rcases hc with hc | hc
        · exact h hc.symm
        · exact hn hc
      · intro hn
        intro hc
        exact hn (Or.inr hc)

theorem lookupId_mergeInto {α : Type} (idOf : α → Nat) (k : Nat) (batch : List α) :
    ∀ m : List (Nat × α),
      lookupId k (mergeInto idOf m batch) =
        (lookupId k m).orElse (fun _ => firstHit idOf k batch) := by
  induction batch with
  | nil =>
    intro m
    simp only [mergeInto, List.foldl_nil, firstHit]
    cases lookupId k m <;> rfl
  | cons a t ih =>
    intro m
    rw [mergeInto_cons]
    simp only [firstHit]
    by_cases hk : idOf a = k
    · rw [if_pos hk]
      by_cases hm : k ∈ keys m
      · have hins : insertIfAbsent m (idOf a) a = m := by
          unfold insertIfAbsent; rw [hk, if_pos hm]
        rw [hins, ih m]
        rcases ho : lookupId k m with _ | v
        · exact absurd ((lookupId_none_iff k m).mp ho) (fun h => h hm)
        · rfl
      · have hins : insertIfAbsent m (idOf a) a = m ++ [(k, a)] := by
          unfold insertIfAbsent; rw [hk, if_neg hm]
        rw [hins, ih (m ++ [(k, a)]), lookupId_append]
        have hnone : lookupId k m = none := (lookupId_none_iff k m).mpr hm
        rw [hnone]
        simp [lookupId, Option.orElse]
    · rw [if_neg hk]
      have hkeep : lookupId k (insertIfAbsent m (idOf a) a) = lookupId k m := by
        unfold insertIfAbsent
        by_cases hm : idOf a ∈ keys m
        · rw [if_pos hm]
        · rw [if_neg hm, lookupId_append]
          have : lookupId k [(idOf a, a)] = none := by
            simp [lookupId, hk]
          rw [this]
          cases lookupId k m <;> rfl
      rw [ih (insertIfAbsent m (idOf a) a), hkeep]

/-- C2: over every sequence of adapter hit batches, the merged per-corpus
maps contain no two entries with the same entity id; the article selection
(`[:5]`) has at most 5 entries and the document selection (`[:3]`) at most
3; the merged key sequence is exactly the id stream restricted to first
occurrences (so an id reported by several adapters or variants keeps the
position of its first discovery), and the entry stored for an id is always
the first hit carrying that id (later hits never overwrite it). -/
theorem c2_merge_first_discovery {α β : Type} (idA : α → Nat) (idB : β → Nat)
    (artBatches : List (List α)) (docBatches : List (List β)) :
    ((mergeBatches idA artBatches).take 5).length ≤ 5 ∧
    (keys ((mergeBatches idA artBatches).take 5)).Nodup ∧
    ((mergeBatches idB docBatches).take 3).length ≤ 3 ∧
    (keys ((mergeBatches idB docBatches).take 3)).Nodup ∧
    keys (mergeBatches idA artBatches) = firstOccurrences (artBatches.flatten.map idA) ∧
    keys (mergeBatches idB docBatches) = firstOccurrences (docBatches.flatten.map idB) ∧
    (∀ k, lookupId k (mergeBatches idA artBatches) = firstHit idA k artBatches.flatten) ∧
    (∀ k, lookupId k (mergeBatches idB docBatches) = firstHit idB k docBatches.flatten) := by
  have hkeysA : keys (mergeBatches idA artBatches) =
      firstOccurrences (artBatches.flatten.map idA) := by
    rw [mergeBatches_eq_flatten, keys_mergeInto]
    simp [keys, firstOccurrences]
  have hkeysB : keys (mergeBatches idB docBatches) =
      firstOccurrences (docBatches.flatten.map idB) := by
    rw [mergeBatches_eq_flatten, keys_mergeInto]
    simp [keys, firstOccurrences]
  have hndA : (keys (mergeBatches idA artBatches)).Nodup := by
    rw [hkeysA]
    exact (firstOccurrencesAux_nodup _ []).1
  have hndB : (keys (mergeBatches idB docBatches)).Nodup := by
    rw [hkeysB]
    exact (firstOccurrencesAux_nodup _ []).1
  refine ⟨List.length_take_le 5 _, ?_, List.length_take_le 3 _, ?_, hkeysA, hkeysB, ?_, ?_⟩
  · have : keys ((mergeBatches idA artBatches).take 5) =
        (keys (mergeBatches idA artBatches)).take 5 := by
      simp [keys, List.map_take]
    rw [this]
    exact hndA.sublist (List.take_sublist 5 _)
  · have : keys ((mergeBatches idB docBatches).take 3) =
        (keys (mergeBatches idB docBatches)).take 3 := by
      simp [keys, List.map_take]
    rw [this]
    exact hndB.sublist (List.take_sublist 3 _)
  · intro k
    rw [mergeBatches_eq_flatten]
    have := lookupId_mergeInto idA k artBatches.flatten ([] : List (Nat × α))
    rw [this]
    simp [lookupId, Option.orElse]
  · intro k
    rw [mergeBatches_eq_flatten]
    have := lookupId_mergeInto idB k docBatches.flatten ([] : List (Nat × β))
    rw [this]
    simp [lookupId, Option.orElse]

/-! ## Primary provider with retry (`_generate_with_mistral`) -/

/-- Outcome of one attempt against the Mistral completion endpoint:
a successful body (the extracted message text, possibly empty), an HTTP 429
with an optional parsed `Retry-After` value, or any other exception /
error status. -/
inductive MistralOutcome where
  | ok (text : List Char)
  | rateLimited (retryAfter : Option ℚ)
  | err
deriving DecidableEq, Repr

/-- The result of `_generate_with_mistral`, instrumented with the sleeps
performed, the number of loop attempts consumed and whether the Ollama
fallback was invoked. -/
structure MistralRun where
  result : List Char
  waits : List ℚ
  attempts : Nat
  fallbackCalls : Nat
deriving DecidableEq, Repr

/-- The fixed apology returned when the Ollama fallback also fails. -/
def apologyText : List Char :=
  ("Извините, временно недоступен сервис генерации. Повторите попытку позже.".data)

/-- `0.5 * (2 ** attempt)`. -/
def backoffDelay (attempt : Nat) : ℚ := (1 / 2) * 2 ^ attempt

/-- The sleep performed when attempt `attempt` fails: on a 429,
`min(retry_after or 0.5 * 2 ** attempt, 5.0)`; on any other failure,
`0.5 * 2 ** attempt` with no cap in the source. -/
def mistralWait (attempt : Nat) : MistralOutcome → ℚ
  | .rateLimited (some h) => min h 5
  | .rateLimited none => min (backoffDelay attempt) 5
  | _ => backoffDelay attempt

/-- The `for attempt in range(4)` loop of `_generate_with_mistral`, with
`remaining` counting the attempts left (`attempt + remaining = 4` at every
call) and `ws` the sleeps performed so far.  After exhaustion, one call to
`_generate_with_ollama` (`fallback = some text` when it returns,
`none` when it raises); on `none` the fixed apology is returned. -/
def mistralLoop (outcomes : Nat → MistralOutcome) (fallback : Option (List Char)) :
    Nat → Nat → List ℚ → MistralRun
  | 0, _, ws =>
    match fallback with
    | some t => ⟨t, ws, 4, 1⟩
    | none => ⟨apologyText, ws, 4, 1⟩
  | remaining + 1, attempt, ws =>
    match outcomes attempt with
    | .ok t => ⟨t, ws, attempt + 1, 0⟩
    | .rateLimited ra =>
        mistralLoop outcomes fallback remaining (attempt + 1)
          (ws ++ [min (ra.getD (backoffDelay attempt)) 5])
    | .err =>
        mistralLoop outcomes fallback remaining (attempt + 1)
          (ws ++ [backoffDelay attempt])

/-- Embeds `_generate_with_mistral`: 4 attempts, then the single Ollama
fallback, then the apology string. -/
def generateWithMistral (outcomes : Nat → MistralOutcome) (fallback : Option (List Char)) :
    MistralRun :=
  mistralLoop outcomes fallback 4 0 []

/-- `ws` holds exactly one sleep per consumed failed attempt, each being the
sleep the source computes for that attempt. -/
def GoodWaits (outcomes : Nat → MistralOutcome) (ws : List ℚ) : Prop :=
  ∀ i, i < ws.length → ws.getD i 0 = mistralWait i (outcomes i)

theorem backoffDelay_le (i : Nat) (h : i < 4) : backoffDelay i ≤ 5 := by
  interval_cases i <;> norm_num [backoffDelay]

theorem mistralWait_le (outcomes : Nat → MistralOutcome) (i : Nat) (h : i < 4) :
    mistralWait i (outcomes i) ≤ 5 := by
  rcases houtcome : outcomes i with t | ra | _
  · simpa [mistralWait] using backoffDelay_le i h
  · rcases ra with _ | hq
    · simp [mistralWait]
    · simp [mistralWait]
  · simpa [mistralWait] using backoffDelay_le i h

theorem goodWaits_append (outcomes : Nat → MistralOutcome) (ws : List ℚ) (attempt : Nat)
    (o : MistralOutcome) (hlen : ws.length = attempt) (ho : o = outcomes attempt)
    (hg : GoodWaits outcomes ws) :
    GoodWaits outcomes (ws ++ [mistralWait attempt o]) := by
  intro i h
  rw [List.length_append, List.length_singleton] at h
  by_cases hi : i < ws.length
  · have hleft : (ws ++ [mistralWait attempt o]).getD i 0 = ws.getD i 0 := by
      rw [List.getD_eq_getElem _ _ (by simp; omega), List.getD_eq_getElem _ _ hi]
      exact List.getElem_append_left hi
    rw [hleft]
    exact hg i hi
  · have hieq : i = ws.length := by omega
    subst hieq
    have hright : (ws ++ [mistralWait attempt o]).getD ws.length 0 = mistralWait attempt o := by
      rw [List.getD_eq_getElem _ _ (by simp)]
      simp
    rw [hright, hlen, ho]

/-- The loop invariant packaged as a predicate on the loop's result. -/
def MistralRunSpec (outcomes : Nat → MistralOutcome) (fallback : Option (List Char))
    (attempt : Nat) (r : MistralRun) : Prop :=
  r.attempts ≤ 4 ∧ r.waits.length ≤ 4 ∧ GoodWaits outcomes r.waits ∧
  r.fallbackCalls ≤ 1 ∧
  ((∀ i, attempt ≤ i → i < 4 → ∀ t, outcomes i ≠ .ok t) →
    r.fallbackCalls = 1 ∧ r.attempts = 4 ∧ r.waits.length = 4 ∧
    r.result = fallback.getD apologyText) ∧
  (r.fallbackCalls = 0 → ∃ i, i < 4 ∧ outcomes i = .ok r.result)

theorem mistralLoop_spec (outcomes : Nat → MistralOutcome) (fallback : Option (List Char)) :
    ∀ (remaining attempt : Nat) (ws : List ℚ),
      attempt + remaining = 4 → ws.length = attempt → GoodWaits outcomes ws →
      MistralRunSpec outcomes fallback attempt
        (mistralLoop outcomes fallback remaining attempt ws) := by
  intro remaining
  induction remaining with
  | zero =>
    intro attempt ws h4 hlen hg
    have hattempt : attempt = 4 := by omega
    have hloop : mistralLoop outcomes fallback 0 attempt ws =
        ⟨fallback.getD apologyText, ws, 4, 1⟩ := by
      rcases fallback with _ | t <;> rfl
    rw [hloop]
    refine ⟨le_refl 4, show ws.length ≤ 4 by omega, hg, le_refl 1, ?_, ?_⟩
    · intro _; exact ⟨rfl, rfl, show ws.length = 4 by omega, rfl⟩
    · intro hc; simp at hc
  | succ rem ih =>
    intro attempt ws h4 hlen hg
    rcases ho : outcomes attempt with t | ra | _
    · have hloop : mistralLoop outcomes fallback (rem + 1) attempt ws =
          ⟨t, ws, attempt + 1, 0⟩ := by
        simp [mistralLoop, ho]
      rw [hloop]
      refine ⟨show attempt + 1 ≤ 4 by omega, show ws.length ≤ 4 by omega, hg,
        Nat.zero_le 1, ?_, ?_⟩
      · intro hfail
        exact absurd ho (hfail attempt (le_refl _) (by omega) t)
      · intro _
        exact ⟨attempt, by omega, ho⟩
    · have hwait : min (ra.getD (backoffDelay attempt)) 5 =
          mistralWait attempt (outcomes attempt) := by
        rcases ra with _ | hq <;> simp [mistralWait, ho, Option.getD]
      have hloop : mistralLoop outcomes fallback (rem + 1) attempt ws =
          mistralLoop outcomes fallback rem (attempt + 1)
            (ws ++ [mistralWait attempt (outcomes attempt)]) := by
        simp only [mistralLoop, ho]
        rw [hwait, ho]
      rw [hloop]
      have := ih (attempt + 1) (ws ++ [mistralWait attempt (outcomes attempt)])
        (by omega) (by simp [hlen])
        (goodWaits_append outcomes ws attempt (outcomes attempt) hlen rfl hg)
      refine ⟨this.1, this.2.1, this.2.2.1, this.2.2.2.1, ?_, this.2.2.2.2.2⟩
      · intro hfail
        exact this.2.2.2.2.1 (fun i hi1 hi2 t => hfail i (by omega) hi2 t)
    · have hwait : backoffDelay attempt = mistralWait attempt (outcomes attempt) := by
        simp [mistralWait, ho]
      have hloop : mistralLoop outcomes fallback (rem + 1) attempt ws =
          mistralLoop outcomes fallback rem (attempt + 1)
            (ws ++ [mistralWait attempt (outcomes attempt)]) := by
        simp only [mistralLoop, ho]
        rw [hwait, ho]
      rw [hloop]
      have := ih (attempt + 1) (ws ++ [mistralWait attempt (outcomes attempt)])
        (by omega) (by simp [hlen])
        (goodWaits_append outcomes ws attempt (outcomes attempt) hlen rfl hg)
      refine ⟨this.1, this.2.1, this.2.2.1, this.2.2.2.1, ?_, this.2.2.2.2.2⟩
      · intro hfail
        exact this.2.2.2.2.1 (fun i hi1 hi2 t => hfail i (by omega) hi2 t)

/-- C3: the primary provider is attempted at most 4 times; each sleep is the
exponential backoff value `0.5 * 2 ** attempt` (base 0.5, doubling), the
`Retry-After` hint replacing it on a rate-limited attempt, every sleep being
at most 5 seconds; non-rate-limit errors also consume an attempt; only after
all 4 attempts fail is the single Ollama fallback invoked (exactly once),
and if it also fails the call returns the fixed apology string instead of
raising. -/
theorem c3_mistral_retry_chain (outcomes : Nat → MistralOutcome)
    (fallback : Option (List Char)) :
    (generateWithMistral outcomes fallback).attempts ≤ 4 ∧
    (generateWithMistral outcomes fallback).waits.length ≤ 4 ∧
    (∀ i, i < (generateWithMistral outcomes fallback).waits.length →
      (generateWithMistral outcomes fallback).waits.getD i 0 = mistralWait i (outcomes i)) ∧
    (∀ w ∈ (generateWithMistral outcomes fallback).waits, w ≤ 5) ∧
    (∀ i, mistralWait i MistralOutcome.err = backoffDelay i) ∧
    backoffDelay 0 = 1 / 2 ∧ (∀ i, backoffDelay (i + 1) = 2 * backoffDelay i) ∧
    (generateWithMistral outcomes fallback).fallbackCalls ≤ 1 ∧
    ((∀ i, i < 4 → ∀ t, outcomes i ≠ .ok t) →
      (generateWithMistral outcomes fallback).fallbackCalls = 1 ∧
      (generateWithMistral outcomes fallback).attempts = 4 ∧
      (generateWithMistral outcomes fallback).waits.length = 4 ∧
      (generateWithMistral outcomes fallback).result = fallback.getD apologyText) ∧
    ((generateWithMistral outcomes fallback).fallbackCalls = 0 →
      ∃ i, i < 4 ∧ outcomes i = .ok (generateWithMistral outcomes fallback).result) := by
  have h := mistralLoop_spec outcomes fallback 4 0 [] (by omega) rfl
    (by intro i hi; simp at hi)
  rw [show mistralLoop outcomes fallback 4 0 [] = generateWithMistral outcomes fallback
    from rfl] at h
  have hgw := h.2.2.1
  have hlen := h.2.1
  refine ⟨h.1, h.2.1, hgw, ?_, ?_, ?_, ?_, h.2.2.2.1, ?_, h.2.2.2.2.2⟩
  · intro w hw
    obtain ⟨⟨i, hi⟩, hget⟩ := List.mem_iff_get.mp hw
    have hd : (generateWithMistral outcomes fallback).waits.getD i 0 = w := by
      rw [List.getD_eq_getElem _ _ hi, ← hget]
      rfl
    rw [← hd, hgw i hi]
    exact mistralWait_le outcomes i (by omega)
  · intro i; rfl
  · norm_num [backoffDelay]
  · intro i
    simp only [backoffDelay, pow_succ]
    ring
  · intro hfail
    exact h.2.2.2.2.1 (fun i _ hi2 t => hfail i hi2 t)

/-! ## Provider chain with settings (`_get_current_model_info`,
`_generate_with_ai_settings`) -/

/-- The provider descriptor returned alongside every answer
(`model_name` / `model_type` / `display_name`). -/
structure ModelInfo where
  modelName : List Char
  modelType : List Char
  displayName : List Char
deriving DecidableEq, Repr

/-- Embeds `_get_current_model_info`, parameterized by
`settings.mistral_model` (the config default) and the `response_model`
string from `ai_settings.json`. -/
def getCurrentModelInfo (mistralModel responseModel : List Char) : ModelInfo :=
  if responseModel = [] then
    ⟨mistralModel, ("mistral".data), ("Mistral: ".data) ++ mistralModel⟩
  else if ("ollama:".data).isPrefixOf responseModel then
    let m := replace ("ollama:".data) [] responseModel
    ⟨m, ("ollama".data), ("Ollama: ".data) ++ m⟩
  else if ("mistral:".data).isPrefixOf responseModel then
    let m := replace ("mistral:".data) [] responseModel
    ⟨m, ("mistral".data), ("Mistral: ".data) ++ m⟩
  else if ("openai:".data).isPrefixOf responseModel then
    let m := replace ("openai:".data) [] responseModel
    ⟨m, ("openai".data), ("OpenAI: ".data) ++ m⟩
  else if ("anthropic:".data).isPrefixOf responseModel then
    let m := replace ("anthropic:".data) [] responseModel
    ⟨m, ("anthropic".data), ("Anthropic: ".data) ++ m⟩
  else
    ⟨responseModel, ("unknown".data), responseModel⟩

/-- One call to the configured async provider (`_generate_with_*_async`):
either its extracted answer text, or it raises. -/
inductive ProviderOutcome where
  | ok (text : List Char)
  | raises
deriving DecidableEq, Repr

/-- `response_model` selects one of the four async provider branches. -/
def usesAsyncProvider (responseModel : List Char) : Bool :=
  ("ollama:".data).isPrefixOf responseModel ||
  ("mistral:".data).isPrefixOf responseModel ||
  ("openai:".data).isPrefixOf responseModel ||
  ("anthropic:".data).isPrefixOf responseModel

/-- Embeds `_generate_with_ai_settings`.  `model_info` is computed from the
settings before any generation.  An empty or unrecognized `response_model`
goes straight to the synchronous `_generate_with_mistral` (which is total:
it ends in the apology string rather than raising, see
`generateWithMistral`); a configured async provider is tried once and any
exception falls back to the synchronous `_generate_with_mistral`.  In every
branch the pair returned carries the same `model_info` computed up front. -/
def generateWithAISettings (mistralModel responseModel : List Char)
    (primary : ProviderOutcome) (mistralSync : List Char) : List Char × ModelInfo :=
  let info := getCurrentModelInfo mistralModel responseModel
  if responseModel = [] then (mistralSync, info)
  else if usesAsyncProvider responseModel then
    match primary with
    | .ok t => (t, info)
    | .raises => (mistralSync, info)
  else (mistralSync, info)

/-- C4 as corrected: the provider descriptor returned by
`_generate_with_ai_settings` is always the one computed from the configured
settings before generation — after the primary provider fails and the
synchronous Mistral fallback produces the answer, the descriptor still names
the failed primary, never the fallback. -/
theorem c4_descriptor_always_primary (mistralModel responseModel : List Char)
    (primary : ProviderOutcome) (mistralSync : List Char) :
    (generateWithAISettings mistralModel responseModel primary mistralSync).2 =
      getCurrentModelInfo mistralModel responseModel ∧
    (usesAsyncProvider responseModel = true → responseModel ≠ [] →
      (generateWithAISettings mistralModel responseModel .raises mistralSync).1 =
        mistralSync) := by
  constructor
  · unfold generateWithAISettings
    by_cases h1 : responseModel = []
    · rw [if_pos h1]
    · rw [if_neg h1]
      by_cases h2 : usesAsyncProvider responseModel = true
      · rw [if_pos h2]
        rcases primary with t | _ <;> rfl
      · rw [if_neg h2]
  · intro h2 h1
    unfold generateWithAISettings
    rw [if_neg h1, if_pos h2]

/-- C4 counterexample: with `response_model = "ollama:llama2"`, the Ollama
primary raising and the Mistral fallback answering `"ok"`, the returned
answer is the fallback's, yet the returned descriptor's type is `"ollama"`
(the failed primary), not `"mistral"` — refuting the claim that the
descriptor names the provider that actually produced the answer. -/
theorem c4_counterexample :
    (generateWithAISettings ("mistral-small".data) ("ollama:llama2".data)
        ProviderOutcome.raises ("ok".data)).1 = ("ok".data) ∧
    (generateWithAISettings ("mistral-small".data) ("ollama:llama2".data)
        ProviderOutcome.raises ("ok".data)).2.modelType = ("ollama".data) ∧
    ("ollama".data) ≠ ("mistral".data) := by
  refine ⟨rfl, rfl, ?_⟩
  decide

/-! ## Retrieval adapters -/

/-- Character class of the tokenizing regex `[\w\-]{2,32}` of
`_search_by_meta`, on the program's alphabet: ASCII digits and letters,
underscore, hyphen, and the Cyrillic block. -/
def isWordChar (c : Char) : Bool :=
  decide ((0x30 ≤ c.toNat ∧ c.toNat ≤ 0x39) ∨ (0x41 ≤ c.toNat ∧ c.toNat ≤ 0x5A) ∨
    (0x61 ≤ c.toNat ∧ c.toNat ≤ 0x7A) ∨ c.toNat = 0x5F ∨ c.toNat = 0x2D ∨
    (0x400 ≤ c.toNat ∧ c.toNat ≤ 0x4FF))

/-- Split a string into its maximal runs of word characters. -/
def splitRunsAux (cur : List Char) (acc : List (List Char)) :
    List Char → List (List Char)
  | [] => if cur = [] then acc else acc ++ [cur]
  | c :: rest =>
    if isWordChar c then splitRunsAux (cur ++ [c]) acc rest
    else splitRunsAux [] (if cur = [] then acc else acc ++ [cur]) rest

/-- Chop one run the way the greedy bounded quantifier `{2,32}` scans it:
pieces of 32 characters in sequence (a shorter final piece only matches
when it has at least 2 characters).  `fuel = run.length` always suffices. -/
def chopRunAux : Nat → List Char → List (List Char)
  | _, [] => []
  | 0, _ => []
  | fuel + 1, l => l.take 32 :: chopRunAux fuel (l.drop 32)

def chopRun (run : List Char) : List (List Char) :=
  (chopRunAux run.length run).filter (fun t => decide (2 ≤ t.length))

/-- `re.findall(r"[\w\-]{2,32}", query)`. -/
def tokenize (q : List Char) : List (List Char) :=
  ((splitRunsAux [] [] q).map chopRun).flatten

/-- Embeds `DatabaseService.search_articles_by_meta` over an abstract
article table, scanned in storage order.  `tag_q` compares tag names
against the upper-cased kept tokens, while `cat_q` compares category names
against the ORIGINAL tokens (the source passes `tokens`, not `toks`, to the
category filter); both sub-queries are truncated at `limit * 2`, their id
sets are unioned, and the final query re-selects those ids capped at
`limit`. -/
def searchArticlesByMeta (db : List Article) (tokens : List (List Char))
    (limit : Nat) : List Article :=
  if tokens = [] then []
  else
    let toks := (tokens.filter (fun t => decide (t ≠ [] ∧ 2 ≤ t.length))).map pyUpper
    if toks = [] then []
    else
      let tagMatches :=
        (db.filter (fun a => a.tags.any (fun tg => decide (tg ∈ toks)))).take (limit * 2)
      let catMatches :=
        (db.filter (fun a => a.categories.any (fun c => decide (c ∈ tokens)))).take (limit * 2)
      let ids := tagMatches.map Article.id ++ catMatches.map Article.id
      if ids = [] then []
      else (db.filter (fun a => decide (a.id ∈ ids))).take limit

/-- Embeds `RAGService._search_by_meta` over an abstract article table:
tokenize, then query the database layer. -/
def searchByMeta (db : List Article) (q : List Char) (limit : Nat) : List Article :=
  searchArticlesByMeta db (tokenize q) limit

/-- `_search_by_meta` as the coordinator sees it: the database call is
wrapped in try/except, any exception yielding []. -/
def searchByMetaGuarded
    (dbMeta : List (List Char) → Except (List Char) (List Article))
    (q : List Char) : List Article :=
  match dbMeta (tokenize q) with
  | .ok l => l
  | .error _ => []

/-- Embeds `DatabaseService.search_articles_for_rag` as seen by the
coordinator: the `ilike` query against the database with NO error
handling — the database layer's outcome, result list or raised exception,
is returned unchanged to the caller. -/
def searchArticlesForRag (dbOutcome : Except (List Char) (List Article)) :
    Except (List Char) (List Article) := dbOutcome

/-- The hydration loop of `_search_semantic`: `for id_ in ids: art =
get_article(id_); if art: results.append(art)` — a database error aborts
the loop and propagates. -/
def hydrateArticles (getArticle : Nat → Except (List Char) (Option Article)) :
    List Nat → Except (List Char) (List Article)
  | [] => .ok []
  | i :: rest => do
    let a? ← getArticle i
    let tail ← hydrateArticles getArticle rest
    match a? with
    | some a => pure (a :: tail)
    | none => pure tail

/-- Embeds `RAGService._search_semantic`: the Chroma `collection.query`
call is inside try/except (any error yields []); the per-id hydration
through `db_service.get_article` happens OUTSIDE the try block, so database
errors there propagate to the caller. -/
def searchSemantic (chromaQuery : List Char → Except (List Char) (List Nat))
    (getArticle : Nat → Except (List Char) (Option Article)) (q : List Char) :
    Except (List Char) (List Article) :=
  match chromaQuery q with
  | .error _ => .ok []
  | .ok ids => hydrateArticles getArticle ids

/-- Embeds `RAGService._search_document_chunks`; the whole body sits inside
try/except returning [] on any error.  `getChunks` models
`DocumentService.get_document_chunks` (modelled from the spec: the
document service's file is not among the sources; the spec's `searchChunks`
returns the document's stored chunks) as an oracle returning the chunk list
or raising. -/
def searchDocumentChunks (getChunks : Nat → Except (List Char) (List Chunk))
    (documentId : Nat) (query : List Char) : List Chunk :=
  match getChunks documentId with
  | .error _ => []
  | .ok chunks =>
    if chunks = [] then []
    else
      let relevant := chunks.filter
        (fun c => !c.text.isEmpty && containsSub (pyLower query) (pyLower c.text))
      if relevant = [] then chunks.take 2 else relevant

/-! ## Context assembler (`_build_context`, `_create_prompt`) -/

/-- Python `x or default` on an optional string: `None` and `""` both give
the default. -/
def pyOr (x : Option (List Char)) (d : List Char) : List Char :=
  match x with
  | some s => if s = [] then d else s
  | none => d

/-- `s[:n]` followed by `'...' if len(s) > n else ''`. -/
def truncateWithEllipsis (n : Nat) (s : List Char) : List Char :=
  s.take n ++ (if n < s.length then ("...".data) else [])

/-- One article block of `_build_context` (1-based index `i`). -/
def articleContextPart (i : Nat) (a : Article) : List Char :=
  ("\nСтатья ".data) ++ (Nat.repr i).data ++ (":\nЗаголовок: ".data) ++ a.title ++
  ("\nТекст: ".data) ++ truncateWithEllipsis 1000 a.text ++
  ("\nURL: ".data) ++ pyOr a.url ("Не указан".data) ++ ("\n".data)

/-- The `Фрагмент` lines for the selected chunks (1-based numbering). -/
def chunkFragmentLines (chunks : List Chunk) : List Char :=
  (((List.range chunks.length).zip chunks).map (fun p =>
    ("  Фрагмент ".data) ++ (Nat.repr (p.1 + 1)).data ++ (": ".data) ++
    truncateWithEllipsis 500 p.2.text ++ ("\n".data))).flatten

/-- One document block of `_build_context`: chunks are searched with the
first matched article's text as auxiliary query (empty string when there is
none), the first 3 selected chunks are truncated to 500 characters; with no
selected chunks the extracted text truncated to 1000 characters stands in;
a summary line is always appended. -/
def docContextPart (getChunks : Nat → Except (List Char) (List Chunk))
    (articles : List Article) (i : Nat) (d : Doc) : List Char :=
  let relevantChunks := searchDocumentChunks getChunks d.id
    (match articles.head? with
     | some a => a.text
     | none => [])
  let headPart :=
    ("\nДокумент ".data) ++ (Nat.repr i).data ++ (":\nЗаголовок: ".data) ++
    pyOr d.title d.originalFilename ++ ("\nТема: ".data) ++
    pyOr d.topic ("Не указана".data) ++
    ("\nПуть: ".data) ++ pyOr d.path ("Не указан".data) ++ ("\n".data)
  let mid :=
    if relevantChunks ≠ [] then
      ("Релевантные фрагменты:\n".data) ++ chunkFragmentLines (relevantChunks.take 3)
    else
      ("Содержание: ".data) ++
      (match d.extractedText with
       | some t => if t = [] then ("Не извлечено".data) else truncateWithEllipsis 1000 t
       | none => ("Не извлечено".data)) ++ ("\n".data)
  headPart ++ mid ++ ("Краткое содержание: ".data) ++
    pyOr d.summary ("Не создано".data) ++ ("\n".data)

/-- Embeds `RAGService._build_context`: article blocks numbered from 1,
document blocks numbered from `len(articles) + 1`, joined with a newline. -/
def buildContext (getChunks : Nat → Except (List Char) (List Chunk))
    (articles : List Article) (documents : List Doc) : List Char :=
  let artParts := ((List.range articles.length).zip articles).map
    (fun p => articleContextPart (p.1 + 1) p.2)
  let docParts := ((List.range documents.length).zip documents).map
    (fun p => docContextPart getChunks articles (articles.length + 1 + p.1) p.2)
  List.intercalate ("\n".data) (artParts ++ docParts)

/-- Embeds `RAGService._create_prompt`. -/
def createPrompt (question context : List Char) : List Char :=
  ("\nКонтекст из базы знаний:\n".data) ++ context ++
  ("\n\nВопрос пользователя: ".data) ++ question ++
  ("\n\nОтвет (отвечай на русском языке, будь конкретным и полезным):\n".data)

/-! ## Orchestrator (`generate_response`) and API boundary (`send_message`) -/

/-- The arguments `generate_response` hands to
`DatabaseService.save_chat_message`. -/
structure SaveArgs where
  userId : List Char
  message : List Char
  response : List Char
  relatedIds : List Nat
deriving DecidableEq, Repr

/-- The external collaborators of `generate_response`, as oracles:
`chromaQuery` is `collection.query(..., n_results=5)` returning entity ids;
`getArticle` is `db_service.get_article`; `textDb` the database behind
`search_articles_for_rag(q, limit=5)`; `metaDb` the database behind
`search_articles_by_meta(tokens, limit=5)`; `docSearch` models
`DocumentService.search_documents_for_rag(q, limit=5)` (modelled from the
spec: that service's file is not among the sources, and per the spec
retrieval adapters fail closed, returning a possibly-empty list);
`getChunks` models `DocumentService.get_document_chunks`; `generate` is
`_generate_with_ai_settings`; `save` is
`DatabaseService.save_chat_message`, returning the new row's id or
raising. -/
structure RAGEnv where
  mistralModel : List Char
  responseModel : List Char
  chromaQuery : List Char → Except (List Char) (List Nat)
  getArticle : Nat → Except (List Char) (Option Article)
  textDb : List Char → Except (List Char) (List Article)
  metaDb : List (List Char) → Except (List Char) (List Article)
  docSearch : List Char → List Doc
  getChunks : Nat → Except (List Char) (List Chunk)
  generate : List Char → Except (List Char) (List Char × ModelInfo)
  save : SaveArgs → Except (List Char) Nat

/-- The hybrid retrieval loop of `generate_response`: for each variant run
the four adapters, folding hits into the two insertion-ordered maps with
`setdefault`, stopping early once 5 articles AND 3 documents are
collected.  Adapter exceptions (semantic hydration, lexical search)
propagate. -/
def retrieveLoop (env : RAGEnv) :
    List (List Char) → List (Nat × Article) → List (Nat × Doc) →
    Except (List Char) (List (Nat × Article) × List (Nat × Doc))
  | [], arts, docs => .ok (arts, docs)
  | q :: rest, arts, docs => do
    let sem ← searchSemantic env.chromaQuery env.getArticle q
    let arts := mergeInto Article.id arts sem
    let txt ← searchArticlesForRag (env.textDb q)
    let arts := mergeInto Article.id arts txt
    let arts := mergeInto Article.id arts (searchByMetaGuarded env.metaDb q)
    let docs := mergeInto Doc.id docs (env.docSearch q)
    if 5 ≤ arts.length ∧ 3 ≤ docs.length then .ok (arts, docs)
    else retrieveLoop env rest arts docs

/-- What `generate_response` returns.  `relatedDocuments` is an `Option`
because the empty-retrieval branch of the source returns a dict WITHOUT the
`related_documents` key (callers reading it with `.get("related_documents",
[])` observe an empty list). -/
structure RAGResult where
  response : List Char
  relatedArticles : List Article
  relatedDocuments : Option (List Doc)
  modelInfo : ModelInfo
  messageId : Nat
deriving DecidableEq, Repr

/-- Embeds `RAGService.generate_response`.  Returns the result together
with the list of `save_chat_message` calls performed.  A save failure
propagates as an exception (there is no try/except around the save). -/
def generateResponse (env : RAGEnv) (userQuestion userId : List Char) :
    Except (List Char) (RAGResult × List SaveArgs) := do
  let variants := expandQueryVariants (normalizeQuery userQuestion)
  let (collected, collectedDocs) ← retrieveLoop env variants [] []
  let relevantArticles := (collected.map Prod.snd).take 5
  let relevantDocuments := (collectedDocs.map Prod.snd).take 3
  if relevantArticles = [] ∧ relevantDocuments = [] then
    let gen :=
      match env.generate (createPrompt userQuestion []) with
      | .ok r => r
      | .error e =>
          (("Извините, сейчас не удалось обработать запрос: ".data) ++ e,
           getCurrentModelInfo env.mistralModel env.responseModel)
    let args : SaveArgs := ⟨userId, userQuestion, gen.1, []⟩
    let mid ← env.save args
    pure (⟨gen.1, [], none, gen.2, mid⟩, [args])
  else
    let context := buildContext env.getChunks relevantArticles relevantDocuments
    let gen :=
      match env.generate (createPrompt userQuestion context) with
      | .ok r => r
      | .error e =>
          (("Произошла ошибка при обработке запроса: ".data) ++ e ++
             (". Пожалуйста, обратитесь к службе поддержки.".data),
           getCurrentModelInfo env.mistralModel env.responseModel)
    let args : SaveArgs := ⟨userId, userQuestion, gen.1,
      relevantArticles.map Article.id ++ relevantDocuments.map Doc.id⟩
    let mid ← env.save args
    pure (⟨gen.1, relevantArticles, some relevantDocuments, gen.2, mid⟩, [args])

/-- Embeds the answer path of `POST /api/chat/send` (`chat.py :
send_message`) with Elasticsearch inactive: call `generate_response`; on
any exception build a FRESH fallback message from the exception text,
persist that fallback as its own turn and return it; if that save also
fails, raise HTTP 500 (modelled as `Except.error`). -/
def sendMessage (env : RAGEnv) (fallbackSave : SaveArgs → Except (List Char) Nat)
    (message userId : List Char) :
    Except (List Char) (List Char × List Article × List Doc × Nat) :=
  match generateResponse env message userId with
  | .ok (r, _) =>
      .ok (r.response, r.relatedArticles, r.relatedDocuments.getD [], r.messageId)
  | .error e =>
    let fbText := ("Извините, произошла ошибка: ".data) ++ e.take 100 ++
      (". Попробуйте повторить запрос позже.".data)
    match fallbackSave ⟨userId, message, fbText, []⟩ with
    | .ok mid => .ok (fbText, [], [], mid)
    | .error _ => .error (("Критическая ошибка: ".data) ++ e.take 200)

/-! ## Theorems: adapter error absorption (C6), normalization case handling
(C7), metadata matching (C8) -/

/-- C6 as corrected: the metadata adapter, the chunk search and the Chroma
query of the semantic adapter absorb internal errors and return empty
results, but the lexical adapter (`search_articles_for_rag`) passes
database exceptions through unchanged, and the semantic adapter's
`get_article` hydration loop propagates database errors — the retrieval
coordinator can therefore observe exceptions. -/
theorem c6_error_absorption_by_adapter :
    (∀ e q, searchByMetaGuarded (fun _ => Except.error e) q = []) ∧
    (∀ e d q, searchDocumentChunks (fun _ => Except.error e) d q = []) ∧
    (∀ e getA q, searchSemantic (fun _ => Except.error e) getA q = Except.ok []) ∧
    (∀ o : Except (List Char) (List Article), searchArticlesForRag o = o) ∧
    (∀ e q i ids,
      searchSemantic (fun _ => Except.ok (i :: ids)) (fun _ => Except.error e) q =
        Except.error e) := by
  refine ⟨fun e q => rfl, fun e d q => rfl, fun e getA q => rfl, fun o => rfl, ?_⟩
  intro e q i ids
  rfl

/-- A retrieval environment whose lexical database raises. -/
def failingTextEnv : RAGEnv where
  mistralModel := ("mistral-small".data)
  responseModel := []
  chromaQuery := fun _ => Except.ok []
  getArticle := fun _ => Except.ok none
  textDb := fun _ => Except.error ("db unreachable".data)
  metaDb := fun _ => Except.ok []
  docSearch := fun _ => []
  getChunks := fun _ => Except.ok []
  generate := fun _ => Except.error ("no provider".data)
  save := fun _ => Except.ok 1

set_option maxRecDepth 8192 in
/-- C6 counterexample: a database failure inside the lexical adapter is NOT
caught — `search_articles_for_rag` returns the exception unchanged and
`generate_response` (the coordinator) aborts with that very exception,
refuting "retrieval adapters never raise to callers". -/
theorem c6_counterexample_lexical_raises :
    searchArticlesForRag (Except.error ("db unreachable".data)) =
      Except.error ("db unreachable".data) ∧
    generateResponse failingTextEnv ("q".data) ("u".data) =
      Except.error ("db unreachable".data) := by
  exact ⟨rfl, rfl⟩

/-- C7 (code slip, contradicting the source's own comments "Не понижаем
регистр полностью" and "сохранив оригинальные куски"): on input
`"АВТОКАД Ошибка"`, `_normalize_query` matches the table key
case-insensitively and lowercases the WHOLE string before substituting, so
the surrounding word `"Ошибка"` comes out as `"ошибка"` — the output is
`"AutoCAD ошибка"`, not the case-preserving `"AutoCAD Ошибка"`, nor the
unchanged `"АВТОКАД Ошибка"` a case-sensitive match would produce. -/
theorem c7_normalize_lowercases_surrounding_text :
    normalizeQuery ("АВТОКАД Ошибка".data) = ("AutoCAD ошибка".data) ∧
    normalizeQuery ("АВТОКАД Ошибка".data) ≠ ("AutoCAD Ошибка".data) ∧
    normalizeQuery ("АВТОКАД Ошибка".data) ≠ ("АВТОКАД Ошибка".data) := by
  refine ⟨rfl, ?_, ?_⟩ <;> decide

/-- The metadata search as the claim words it (spec-side definition, for
comparison only): keep tokens of length at least 2, upper-case them, match
the upper-cased tokens against BOTH tag names and category names, union the
two match sets, truncate to `limit`. -/
def searchByMetaSpec (db : List Article) (q : List Char) (limit : Nat) :
    List Article :=
  let toks := ((tokenize q).filter (fun t => decide (2 ≤ t.length))).map pyUpper
  (db.filter (fun a => a.tags.any (fun tg => decide (tg ∈ toks)) ||
    a.categories.any (fun c => decide (c ∈ toks)))).take limit

/-- An article whose only metadata is the category name "AB". -/
def articleCatAB : Article :=
  ⟨1, ("t".data), ("x".data), none, [], [("AB".data)]⟩

/-- An article whose only metadata is the tag name "AB". -/
def articleTagAB : Article :=
  ⟨2, ("t".data), ("x".data), none, [("AB".data)], []⟩

/-- C8 counterexample: for query `"ab"` against an article carrying
category `"AB"`, the claimed behaviour (upper-cased tokens matched against
category names) finds the article, but the code compares category names
against the ORIGINAL tokens and finds nothing. -/
theorem c8_counterexample_category_case :
    searchByMeta [articleCatAB] ("ab".data) 5 = [] ∧
    searchByMetaSpec [articleCatAB] ("ab".data) 5 = [articleCatAB] := by
  exact ⟨rfl, rfl⟩

/-- C8 as corrected: the metadata adapter tokenizes the query (word runs,
kept pieces of length 2 to 32), matches the upper-cased tokens against tag
names but the original-case tokens against category names, unions the two
id sets and truncates to `limit`: every returned article carries a tag
equal to an upper-cased kept token or a category equal to an original
token, and at most `limit` articles are returned. -/
theorem c8_meta_tokens_and_union (db : List Article) (q : List Char) (limit : Nat)
    (hnd : (db.map Article.id).Nodup) :
    (searchByMeta db q limit).length ≤ limit ∧
    ∀ a ∈ searchByMeta db q limit,
      (∃ t ∈ ((tokenize q).filter
          (fun t => decide (t ≠ [] ∧ 2 ≤ t.length))).map pyUpper, t ∈ a.tags) ∨
      (∃ t ∈ tokenize q, t ∈ a.categories) := by
  unfold searchByMeta searchArticlesByMeta
  by_cases h1 : tokenize q = []
  · rw [if_pos h1]
    exact ⟨Nat.zero_le _, fun a ha => absurd ha (by simp)⟩
  · rw [if_neg h1]
    by_cases h2 : ((tokenize q).filter
        (fun t => decide (t ≠ [] ∧ 2 ≤ t.length))).map pyUpper = []
    · rw [if_pos h2]
      exact ⟨Nat.zero_le _, fun a ha => absurd ha (by simp)⟩
    · rw [if_neg h2]
      by_cases h3 :
          ((db.filter (fun a => a.tags.any (fun tg => decide (tg ∈ ((tokenize q).filter
              (fun t => decide (t ≠ [] ∧ 2 ≤ t.length))).map pyUpper)))).take
                (limit * 2)).map Article.id ++
            ((db.filter (fun a => a.categories.any
              (fun c => decide (c ∈ tokenize q)))).take (limit * 2)).map Article.id = []
      · rw [if_pos h3]
        exact ⟨Nat.zero_le _, fun a ha => absurd ha (by simp)⟩
      · rw [if_neg h3]
        refine ⟨List.length_take_le _ _, ?_⟩
        intro a ha
        have ha2 := List.take_subset _ _ ha
        rw [List.mem_filter] at ha2
        obtain ⟨hadb, hid⟩ := ha2
        rw [decide_eq_true_iff, List.mem_append] at hid
        have hinj := List.inj_on_of_nodup_map hnd
        rcases hid with hid | hid
        · left
          rw [List.mem_map] at hid
          obtain ⟨b, hb, hbid⟩ := hid
          have hb2 := List.take_subset _ _ hb
          rw [List.mem_filter] at hb2
          obtain ⟨hbdb, hbtag⟩ := hb2
          have hab : b = a := hinj hbdb hadb hbid
          subst hab
          rw [List.any_eq_true] at hbtag
          obtain ⟨tg, htg, htoks⟩ := hbtag
          rw [decide_eq_true_iff] at htoks
          exact ⟨tg, htoks, htg⟩
        · right
          rw [List.mem_map] at hid
          obtain ⟨b, hb, hbid⟩ := hid
          have hb2 := List.take_subset _ _ hb
          rw [List.mem_filter] at hb2
          obtain ⟨hbdb, hbcat⟩ := hb2
          have hab : b = a := hinj hbdb hadb hbid
          subst hab
          rw [List.any_eq_true] at hbcat
          obtain ⟨c, hc, htok⟩ := hbcat
          rw [decide_eq_true_iff] at htok
          exact ⟨c, htok, hc⟩

/-- Witness for `c8_meta_tokens_and_union` at a concrete table: the article
tagged "AB" is returned for query "ab" and indeed matches by tag. -/
theorem c8_meta_tokens_and_union_witness :
    (∃ t ∈ ((tokenize ("ab".data)).filter
        (fun t => decide (t ≠ [] ∧ 2 ≤ t.length))).map pyUpper, t ∈ articleTagAB.tags) ∨
    (∃ t ∈ tokenize ("ab".data), t ∈ articleTagAB.categories) := by
  exact (c8_meta_tokens_and_union [articleTagAB] ("ab".data) 5 (by decide)).2
    articleTagAB (by decide)

/-! ## Theorems: the empty-retrieval path (C5), persistence failures (C9)
and turn persistence (C10) -/

theorem exceptBind_ok {ε α β : Type} (a : α) (f : α → Except ε β) :
    (Except.ok a >>= f) = f a := rfl

theorem exceptBind_err {ε α β : Type} (e : ε) (f : α → Except ε β) :
    ((Except.error e : Except ε α) >>= f) = Except.error e := rfl

theorem exceptPure {ε α : Type} (a : α) : (pure a : Except ε α) = Except.ok a := rfl

theorem retrieveLoop_all_empty (env : RAGEnv)
    (hsem : ∀ q, searchSemantic env.chromaQuery env.getArticle q = Except.ok [])
    (htxt : ∀ q, env.textDb q = Except.ok [])
    (hmeta : ∀ q, searchByMetaGuarded env.metaDb q = [])
    (hdoc : ∀ q, env.docSearch q = []) :
    ∀ vs, retrieveLoop env vs [] [] = Except.ok ([], []) := by
  intro vs
  induction vs with
  | nil => rfl
  | cons q rest ih =>
    simp only [retrieveLoop, hsem q, htxt q, hmeta q, hdoc q, searchArticlesForRag,
      exceptBind_ok, mergeInto, List.foldl_nil, List.length_nil]
    rw [if_neg (by omega)]
    exact ih

/-- C5 as corrected: when every retrieval adapter yields zero hits for
every variant, `generate_response` skips context assembly and invokes the
generation chain on the bare question with an empty context; it returns the
chain's answer (empty exactly when the provider's reply is empty), an empty
related-articles list, NO related-documents entry (the source's
empty-retrieval branch omits the `related_documents` key; callers reading
it with an empty default observe an empty list), and the id of the single
persisted turn. -/
theorem c5_empty_retrieval_path (env : RAGEnv)
    (question userId ans : List Char) (mi : ModelInfo) (mid : Nat)
    (hsem : ∀ q, searchSemantic env.chromaQuery env.getArticle q = Except.ok [])
    (htxt : ∀ q, env.textDb q = Except.ok [])
    (hmeta : ∀ q, searchByMetaGuarded env.metaDb q = [])
    (hdoc : ∀ q, env.docSearch q = [])
    (hgen : env.generate (createPrompt question []) = Except.ok (ans, mi))
    (hsave : env.save ⟨userId, question, ans, []⟩ = Except.ok mid) :
    generateResponse env question userId =
      Except.ok (⟨ans, [], none, mi, mid⟩, [⟨userId, question, ans, []⟩]) := by
  have hloop := retrieveLoop_all_empty env hsem htxt hmeta hdoc
    (expandQueryVariants (normalizeQuery question))
  simp only [generateResponse, hloop, exceptBind_ok, List.map_nil, List.take_nil, hgen]
  rw [if_pos (by simp)]
  simp only [hsave, exceptBind_ok, exceptPure]

/-- A test environment whose retrieval oracles are all empty and total,
with the generation and save outcomes supplied. -/
def emptyEnv (genResult : Except (List Char) (List Char × ModelInfo))
    (saveResult : Except (List Char) Nat) : RAGEnv where
  mistralModel := ("mistral-small".data)
  responseModel := []
  chromaQuery := fun _ => Except.ok []
  getArticle := fun _ => Except.ok none
  textDb := fun _ => Except.ok []
  metaDb := fun _ => Except.ok []
  docSearch := fun _ => []
  getChunks := fun _ => Except.ok []
  generate := fun _ => genResult
  save := fun _ => saveResult

/-- A fixed provider descriptor used by the concrete test environments. -/
def defInfo : ModelInfo := ⟨("m".data), ("mistral".data), ("Mistral: m".data)⟩

set_option maxRecDepth 8192 in
/-- Witness for `c5_empty_retrieval_path` at a concrete environment. -/
theorem c5_empty_retrieval_path_witness :
    generateResponse (emptyEnv (Except.ok (("a".data), defInfo)) (Except.ok 7))
        ("q".data) ("u".data) =
      Except.ok (⟨("a".data), [], none, defInfo, 7⟩,
        [⟨("u".data), ("q".data), ("a".data), []⟩]) := by
  exact c5_empty_retrieval_path _ _ _ _ _ _
    (fun q => rfl) (fun q => rfl) (fun q => rfl) (fun q => rfl) rfl rfl

set_option maxRecDepth 8192 in
/-- C5 counterexample: with zero hits everywhere and a provider whose reply
is the empty string, `generate_response` returns an EMPTY answer (refuting
"returns a non-empty answer") and its result carries no related-documents
entry at all (`none`, the missing dict key) rather than an empty list. -/
theorem c5_counterexample_empty_answer :
    generateResponse (emptyEnv (Except.ok ([], defInfo)) (Except.ok 7))
        ("q".data) ("u".data) =
      Except.ok (⟨[], [], none, defInfo, 7⟩, [⟨("u".data), ("q".data), [], []⟩]) := by
  rfl

/-- C9 as corrected: a persistence failure inside `generate_response`
aborts it with the exception; the API layer (`send_message`) catches it and
returns a freshly built fallback error message — NOT the already-generated
answer — persisting that fallback as its own turn; if saving the fallback
also fails, the caller gets HTTP 500. -/
theorem c9_persistence_failure_replaces_answer (env : RAGEnv)
    (fallbackSave : SaveArgs → Except (List Char) Nat)
    (message userId e : List Char)
    (h : generateResponse env message userId = Except.error e) :
    (∀ mid, fallbackSave ⟨userId, message,
        ("Извините, произошла ошибка: ".data) ++ e.take 100 ++
          (". Попробуйте повторить запрос позже.".data), []⟩ = Except.ok mid →
      sendMessage env fallbackSave message userId =
        Except.ok (("Извините, произошла ошибка: ".data) ++ e.take 100 ++
          (". Попробуйте повторить запрос позже.".data), [], [], mid)) ∧
    (∀ e2, fallbackSave ⟨userId, message,
        ("Извините, произошла ошибка: ".data) ++ e.take 100 ++
          (". Попробуйте повторить запрос позже.".data), []⟩ = Except.error e2 →
      sendMessage env fallbackSave message userId =
        Except.error (("Критическая ошибка: ".data) ++ e.take 200)) := by
  constructor
  · intro mid hfb
    unfold sendMessage
    rw [h]
    simp only [hfb]
  · intro e2 hfb
    unfold sendMessage
    rw [h]
    simp only [hfb]

set_option maxRecDepth 8192 in
/-- C9 counterexample: the provider generates `"answer"`, the save fails
with `"db down"`; `generate_response` aborts and the caller receives the
fallback error message instead of the generated answer — the persistence
fault suppresses and replaces the answer, refuting the claim. -/
theorem c9_counterexample_answer_replaced :
    generateResponse (emptyEnv (Except.ok (("answer".data), defInfo))
        (Except.error ("db down".data))) ("q".data) ("u".data) =
      Except.error ("db down".data) ∧
    sendMessage (emptyEnv (Except.ok (("answer".data), defInfo))
        (Except.error ("db down".data))) (fun _ => Except.ok 3)
        ("q".data) ("u".data) =
      Except.ok
        (("Извините, произошла ошибка: db down. Попробуйте повторить запрос позже.".data),
          [], [], 3) ∧
    ("Извините, произошла ошибка: db down. Попробуйте повторить запрос позже.".data) ≠
      ("answer".data) := by
  refine ⟨rfl, rfl, by decide⟩

set_option maxRecDepth 8192 in
/-- Witness for `c9_persistence_failure_replaces_answer` at a concrete
environment whose save raises. -/
theorem c9_persistence_failure_witness :
    sendMessage (emptyEnv (Except.ok (("answer".data), defInfo))
        (Except.error ("db down".data))) (fun _ => Except.ok 3)
        ("q".data) ("u".data) =
      Except.ok
        (("Извините, произошла ошибка: ".data) ++ ("db down".data).take 100 ++
          (". Попробуйте повторить запрос позже.".data), [], [], 3) := by
  exact (c9_persistence_failure_replaces_answer
    (emptyEnv (Except.ok (("answer".data), defInfo)) (Except.error ("db down".data)))
    (fun _ => Except.ok 3) ("q".data) ("u".data) ("db down".data) rfl).1 3 rfl

/-- C10: every completed `generate_response` call performs exactly one
`save_chat_message`, whose related-ids field is the article ids followed by
the document ids as one untagged list of plain numbers; an article and a
document with the same numeric id contribute indistinguishable entries. -/
theorem c10_one_turn_untagged_ids (env : RAGEnv) (q uid : List Char)
    (r : RAGResult) (log : List SaveArgs)
    (h : generateResponse env q uid = Except.ok (r, log)) :
    log.length = 1 ∧
    log = [⟨uid, q, r.response,
      r.relatedArticles.map Article.id ++
        (r.relatedDocuments.getD []).map Doc.id⟩] ∧
    (∀ (a : Article) (d : Doc), a.id = d.id →
      ([a].map Article.id : List Nat) = [d].map Doc.id) := by
  have hmain : log = [⟨uid, q, r.response,
      r.relatedArticles.map Article.id ++
        (r.relatedDocuments.getD []).map Doc.id⟩] := by
    simp only [generateResponse] at h
    rcases hloop : retrieveLoop env (expandQueryVariants (normalizeQuery q)) [] []
      with e | ⟨collected, collectedDocs⟩
    · rw [hloop, exceptBind_err] at h
      exact absurd h (by simp)
    · rw [hloop, exceptBind_ok] at h
      by_cases hbranch : (collected.map Prod.snd).take 5 = [] ∧
          (collectedDocs.map Prod.snd).take 3 = []
      · rw [if_pos hbranch] at h
        set g := (match env.generate (createPrompt q []) with
          | Except.ok r => r
          | Except.error e =>
              (("Извините, сейчас не удалось обработать запрос: ".data) ++ e,
               getCurrentModelInfo env.mistralModel env.responseModel)) with hgdef
        rcases hsave : env.save ⟨uid, q, g.1, []⟩ with e2 | mid
        · rw [hsave, exceptBind_err] at h
          exact absurd h (by simp)
        · rw [hsave, exceptBind_ok, exceptPure] at h
          rw [Except.ok.injEq, Prod.mk.injEq] at h
          obtain ⟨hr, hlog⟩ := h
          rw [← hr, ← hlog]
          rfl
      · rw [if_neg hbranch] at h
        set g := (match env.generate (createPrompt q
            (buildContext env.getChunks ((collected.map Prod.snd).take 5)
              ((collectedDocs.map Prod.snd).take 3))) with
          | Except.ok r => r
          | Except.error e =>
              (("Произошла ошибка при обработке запроса: ".data) ++ e ++
                 (". Пожалуйста, обратитесь к службе поддержки.".data),
               getCurrentModelInfo env.mistralModel env.responseModel)) with hgdef
        rcases hsave : env.save ⟨uid, q, g.1,
            ((collected.map Prod.snd).take 5).map Article.id ++
              ((collectedDocs.map Prod.snd).take 3).map Doc.id⟩ with e2 | mid
        · rw [hsave, exceptBind_err] at h
          exact absurd h (by simp)
        · rw [hsave, exceptBind_ok, exceptPure] at h
          rw [Except.ok.injEq, Prod.mk.injEq] at h
          obtain ⟨hr, hlog⟩ := h
          rw [← hr, ← hlog]
          rfl
  refine ⟨by rw [hmain]; rfl, hmain, ?_⟩
  intro a d hid
  simp [hid]

set_option maxRecDepth 8192 in
/-- Witness for `c10_one_turn_untagged_ids` at a concrete run. -/
theorem c10_one_turn_untagged_ids_witness :
    ([(⟨("u".data), ("q".data), ("a".data), []⟩ : SaveArgs)]).length = 1 := by
  exact (c10_one_turn_untagged_ids
    (emptyEnv (Except.ok (("a".data), defInfo)) (Except.ok 7))
    ("q".data) ("u".data) ⟨("a".data), [], none, defInfo, 7⟩
    [⟨("u".data), ("q".data), ("a".data), []⟩] rfl).1

end ChatHelp
